import Mathlib

/-!
Shallow embedding of the ISS tracker (`iss_tracker.py`) and verification of
its specification.  Python strings are modelled as lists of characters,
floating-point components as rational numbers (the exact decimal values
carried by the JSON text), and timezone-aware UTC datetimes as a record of
calendar fields.
-/

/-- Python strings, modelled as lists of characters. -/
abbrev Str := List Char

/-- The character for a single decimal digit `r < 10`. -/
def digitChar (r : Nat) : Char := Char.ofNat (48 + r)

/-- Zero-padded fixed-width decimal rendering of `n` on `w` digits
(the `%04d`-style fields of `strftime`/`isoformat`). -/
def padDigits : Nat → Nat → Str
  | 0, _ => []
  | w + 1, n => padDigits w (n / 10) ++ [digitChar (n % 10)]

/-- Value of a list of decimal digit characters. -/
def digitsVal (cs : Str) : Nat := cs.foldl (fun a c => 10 * a + (c.toNat - 48)) 0

/-- Read exactly `w` decimal digits from the front of `cs`, returning the
value and the rest (a fixed-width field of `strptime`/`fromisoformat`). -/
def readN (w : Nat) (cs : Str) : Option (Nat × Str) :=
  let pre := cs.take w
  if pre.length = w ∧ pre.all (fun c => c.isDigit) then some (digitsVal pre, cs.drop w)
  else none

/-- Consume one expected literal character. -/
def expectC (c : Char) : Str → Option Str
  | [] => none
  | x :: xs => if x = c then some xs else none

/-- A timezone-aware UTC `datetime` value (`datetime.datetime` with
`tzinfo=timezone.utc`), as produced by `parse_iss_data`. -/
structure DateTime where
  year : Nat
  month : Nat
  day : Nat
  hour : Nat
  minute : Nat
  second : Nat
  microsecond : Nat
deriving DecidableEq, Repr

/-- Gregorian leap-year test. -/
def isLeap (y : Nat) : Bool := y % 4 = 0 && (y % 100 != 0 || y % 400 = 0)

/-- Length of month `m` (1-based) in a year with leap status `leap`. -/
def monthLen (leap : Bool) (m : Nat) : Nat :=
  match m with
  | 1 => 31 | 2 => if leap then 29 else 28 | 3 => 31 | 4 => 30
  | 5 => 31 | 6 => 30 | 7 => 31 | 8 => 31
  | 9 => 30 | 10 => 31 | 11 => 30 | 12 => 31
  | _ => 0

/-- Day-of-year (1-based) of the calendar date `(m, d)` (`strftime("%j")`). -/
def doyOf (leap : Bool) (m d : Nat) : Nat :=
  (List.range (m - 1)).foldl (fun a i => a + monthLen leap (i + 1)) 0 + d

/-- Month/day reconstruction from a day-of-year, walking the months
(the calendar arithmetic inside `time.strptime` with `%j`). -/
def fromDoyAux : Nat → Bool → Nat → Nat → Nat × Nat
  | 0, _, m, j => (m, j)
  | fuel + 1, leap, m, j =>
    if j ≤ monthLen leap m then (m, j) else fromDoyAux fuel leap (m + 1) (j - monthLen leap m)

/-- Month and day (1-based) of day-of-year `j`. -/
def fromDoy (leap : Bool) (j : Nat) : Nat × Nat := fromDoyAux 11 leap 1 j

/-- Leap days occurring in years `1..y`. -/
def leapsBefore (y : Nat) : Nat := y / 4 - y / 100 + y / 400

/-- Days in years strictly before year `y` (proleptic Gregorian, year ≥ 1). -/
def daysBeforeYear (y : Nat) : Nat := 365 * (y - 1) + leapsBefore (y - 1)

/-- The chronological value of a UTC datetime in microseconds; Python datetime
comparison and subtraction coincide with comparison and subtraction of this
value. -/
def toMicros (dt : DateTime) : Int :=
  (((((((daysBeforeYear dt.year + doyOf (isLeap dt.year) dt.month dt.day - 1) * 24
      + dt.hour) * 60 + dt.minute) * 60 + dt.second) * 1000000 + dt.microsecond : Nat) : Int))

/-- The `+00:00` UTC-offset suffix `isoformat` appends to an aware UTC datetime. -/
def tzChars : Str := ['+', '0', '0', ':', '0', '0']

/-- `dt.isoformat(timespec="seconds")`: seconds precision, fractional part
dropped, `+00:00` offset. -/
def isoSecChars (dt : DateTime) : Str :=
  padDigits 4 dt.year ++ '-' :: (padDigits 2 dt.month ++ '-' :: (padDigits 2 dt.day ++
    'T' :: (padDigits 2 dt.hour ++ ':' :: (padDigits 2 dt.minute ++
      ':' :: (padDigits 2 dt.second ++ tzChars)))))

/-- `dt.isoformat()`: full precision; the `.ffffff` fractional field is present
exactly when the microsecond component is nonzero. -/
def isoFullChars (dt : DateTime) : Str :=
  padDigits 4 dt.year ++ '-' :: (padDigits 2 dt.month ++ '-' :: (padDigits 2 dt.day ++
    'T' :: (padDigits 2 dt.hour ++ ':' :: (padDigits 2 dt.minute ++
      ':' :: (padDigits 2 dt.second ++
        ((if dt.microsecond = 0 then [] else '.' :: padDigits 6 dt.microsecond) ++ tzChars))))))

/-- `datetime.fromisoformat` on the strings this system stores: fixed-width
date and time fields, an optional 6-digit fractional-second field, and the
`+00:00` offset; `none` models the `ValueError` raised on malformed input. -/
def fromisoChars (cs : Str) : Option DateTime :=
  match readN 4 cs with
  | none => none
  | some (y, cs) =>
  match expectC '-' cs with
  | none => none
  | some cs =>
  match readN 2 cs with
  | none => none
  | some (mo, cs) =>
  match expectC '-' cs with
  | none => none
  | some cs =>
  match readN 2 cs with
  | none => none
  | some (d, cs) =>
  match expectC 'T' cs with
  | none => none
  | some cs =>
  match readN 2 cs with
  | none => none
  | some (h, cs) =>
  match expectC ':' cs with
  | none => none
  | some cs =>
  match readN 2 cs with
  | none => none
  | some (mi, cs) =>
  match expectC ':' cs with
  | none => none
  | some cs =>
  match readN 2 cs with
  | none => none
  | some (s, cs) =>
  match cs with
  | '.' :: rest =>
    (match readN 6 rest with
     | none => none
     | some (us, rest2) =>
       if rest2 = tzChars then some ⟨y, mo, d, h, mi, s, us⟩ else none)
  | other => if other = tzChars then some ⟨y, mo, d, h, mi, s, 0⟩ else none

/-- Calendar-field bounds under which the fixed-width ISO rendering is
faithful (every Python datetime satisfies them). -/
def ValidDT (dt : DateTime) : Prop :=
  dt.year < 10 ^ 4 ∧ dt.month < 10 ^ 2 ∧ dt.day < 10 ^ 2 ∧ dt.hour < 10 ^ 2 ∧
    dt.minute < 10 ^ 2 ∧ dt.second < 10 ^ 2 ∧ dt.microsecond < 10 ^ 6

/-- The entry dictionary while inside the parse loop and as serialized into
the cache: the epoch is the full-precision ISO string, position and velocity
are 3-vectors.  Python's JSON text is modelled by the structured record it
encodes, with the decimal number leaves as exact rationals. -/
structure PEntry where
  epoch : Str
  position : ℚ × ℚ × ℚ
  velocity : ℚ × ℚ × ℚ
deriving DecidableEq, Repr

/-- An entry as returned to callers of `parse_iss_data`/`get_iss_data`:
the epoch converted back to a datetime. -/
structure Entry where
  epoch : DateTime
  position : ℚ × ℚ × ℚ
  velocity : ℚ × ℚ × ℚ
deriving DecidableEq, Repr

/-- The Redis hash `"iss_data"`: an association of epoch-key fields to
serialized entries, in storage order. -/
abbrev Cache := List (Str × PEntry)

/-- `rd.hset("iss_data", k, v)`: overwrite the field `k` if present,
otherwise append it. -/
def hset (c : Cache) (k : Str) (v : PEntry) : Cache :=
  if c.any (fun p => p.1 == k) then c.map (fun p => if p.1 == k then (k, v) else p)
  else c ++ [(k, v)]

/-- One raw `stateVector` record of the ephemeris XML.  A `none` field models
the exception raised while reading it: a missing key (`KeyError`), a
non-numeric component (`ValueError` from `float`), or an `EPOCH` string not
matching the `"%Y-%jT%H:%M:%S.%fZ"` day-of-year pattern (`ValueError` from
`strptime`). -/
structure RawRec where
  EPOCH : Option DateTime
  X : Option ℚ
  Y : Option ℚ
  Z : Option ℚ
  X_DOT : Option ℚ
  Y_DOT : Option ℚ
  Z_DOT : Option ℚ
deriving DecidableEq, Repr

/-- The entry built from one raw record in the body of the parse loop
(lines 44-59 of `iss_tracker.py`); `none` when any field access fails. -/
def toPEntry (v : RawRec) : Option PEntry :=
  match v.EPOCH, v.X, v.Y, v.Z, v.X_DOT, v.Y_DOT, v.Z_DOT with
  | some dt, some x, some y, some z, some xd, some yd, some zd =>
    some ⟨isoFullChars dt, (x, y, z), (xd, yd, zd)⟩
  | _, _, _, _, _, _, _ => none

/-- The record loop of `parse_iss_data` (lines 43-62): accumulates the entry
list and executes `rd.hset` for each entry as it goes; the first failing
record aborts with the exception (`none` result), leaving the cache writes
already performed in place. -/
def parseLoop : List RawRec → List PEntry → Cache → Option (List PEntry) × Cache
  | [], acc, c => (some acc, c)
  | v :: rest, acc, c =>
    match toPEntry v with
    | none => (none, c)
    | some e => parseLoop rest (acc ++ [e]) (hset c e.epoch e)

/-- Deserialize one cached entry: `json.loads` restores the record and
`datetime.fromisoformat` restores the epoch (lines 82-83); `none` models the
`ValueError` on a malformed stored epoch. -/
def ofCacheEntry (p : PEntry) : Option Entry :=
  (fromisoChars p.epoch).map fun dt => Entry.mk dt p.position p.velocity

/-- `parse_iss_data` (lines 37-69): loops over the records writing each entry
to the cache, then converts the accumulated epoch strings back to datetimes;
on any parse exception returns the empty list (line 69), the cache keeping
whatever the loop already wrote. -/
def parse_iss_data (recs : List RawRec) (rd : Cache) : List Entry × Cache :=
  match parseLoop recs [] rd with
  | (none, c) => ([], c)
  | (some acc, c) =>
    match acc.mapM ofCacheEntry with
    | some l => (l, c)
    | none => ([], c)

/-- `get_iss_data` (lines 72-88).  `rdFails` models the Redis client raising
on any operation (connection or read/write error); every exception is caught
at line 86 and the empty list returned.  `fetched` is the result of
`fetch_iss_data`: `none` models both a failed fetch and an empty response
body (lines 32-34 and 77-78). -/
def get_iss_data (rdFails : Bool) (rd : Cache) (fetched : Option (List RawRec)) : List Entry :=
  if rdFails then []
  else if rd.length = 0 then
    match fetched with
    | none => []
    | some recs => (parse_iss_data recs rd).1
  else
    match (rd.map Prod.snd).mapM ofCacheEntry with
    | some data => data
    | none => []

/-- `compute_speed` (lines 91-93): Euclidean norm of the velocity vector. -/
noncomputable def compute_speed (v : ℚ × ℚ × ℚ) : ℝ :=
  Real.sqrt ((v.1 : ℝ) ^ 2 + (v.2.1 : ℝ) ^ 2 + (v.2.2 : ℝ) ^ 2)

/-- `compute_average_speed` (lines 96-99): `sum(speeds)/len(speeds)` when the
list is non-empty, `0.0` otherwise. -/
noncomputable def compute_average_speed (data : List Entry) : ℝ :=
  let speeds := data.map fun e => compute_speed e.velocity
  if speeds.isEmpty then 0 else speeds.sum / speeds.length

/-- The ordering the handlers sort by: comparison of the epoch datetimes. -/
def epochLe (a b : Entry) : Prop := toMicros a.epoch ≤ toMicros b.epoch

instance : DecidableRel epochLe :=
  fun a b => inferInstanceAs (Decidable (toMicros a.epoch ≤ toMicros b.epoch))

/-- `abs(d["epoch"] - now)`: the minimized key of `find_closest_epoch`, in
microseconds. -/
def diffKey (e : Entry) (t : DateTime) : Int := |toMicros e.epoch - toMicros t|

/-- `find_closest_epoch` (lines 102-104): `min(data, key=...)`, keeping the
first element attaining the minimum; `none` models the `ValueError` `min`
raises on an empty list. -/
def find_closest_epoch (data : List Entry) (now : DateTime) : Option Entry :=
  match data with
  | [] => none
  | x :: xs => some (xs.foldl (fun best d => if diffKey d now < diffKey best now then d else best) x)

/-- Clamp one Python slice index: negative indices count from the end,
then the result is clamped to `[0, n]`. -/
def clampIdx (n : Nat) (i : Int) : Nat :=
  ((if i < 0 then (n : Int) + i else i).toNat).min n

/-- Python list slicing `l[i:j]` (`j = none` for an omitted stop), step 1. -/
def pySlice {α : Type} (l : List α) (i : Int) (j : Option Int) : List α :=
  let n := l.length
  let lo := clampIdx n i
  let hi := match j with
    | none => n
    | some j => clampIdx n j
  (l.drop lo).take (hi - lo)

/-- The subset selection of the `/epochs` handler (line 141):
`data[offset : offset + limit]` when a limit is given, `data[offset:]`
otherwise. -/
def rangeSlice (data : List Entry) (offset : Int) (limit : Option Int) : List Entry :=
  match limit with
  | some l => pySlice data offset (some (offset + l))
  | none => pySlice data offset none

/-- `data.sort(key=lambda d: d["epoch"])` (line 138): stable ascending sort
by epoch. -/
def sortByEpoch (data : List Entry) : List Entry := List.insertionSort epochLe data

/-- `"\n".join(...)`. -/
def joinNL : List Str → Str
  | [] => []
  | [x] => x
  | x :: rest => x ++ '\n' :: joinNL rest

/-- The `/epochs` handler (lines 130-144): sorts ascending by epoch, slices by
offset/limit, joins the second-precision ISO epochs with newlines and appends
a trailing newline; every step is total so the success branch (HTTP 200)
always applies.  The caller-side defaults are `offset = 0`, `limit = none`. -/
def epochsRoute (data : List Entry) (offset : Int) (limit : Option Int) : Str × Nat :=
  let sorted := sortByEpoch data
  let subset := rangeSlice sorted offset limit
  (joinNL (subset.map fun e => isoSecChars e.epoch) ++ ['\n'], 200)

/-- Python's rendering of one numeric component. -/
def renderQ (q : ℚ) : Str := (toString q).data

/-- Python's rendering of a 3-component list, `[x, y, z]`. -/
def renderTriple (p : ℚ × ℚ × ℚ) : Str :=
  ('[' :: renderQ p.1) ++ (',' :: ' ' :: renderQ p.2.1) ++
    (',' :: ' ' :: renderQ p.2.2) ++ [']']

/-- The success body of the `/epochs/{epoch}` handler (lines 154-158). -/
def renderEpochBlock (e : Entry) : Str :=
  "Epoch: ".data ++ isoSecChars e.epoch ++ '\n' ::
    ("Position: ".data ++ renderTriple e.position ++ '\n' ::
      ("Velocity: ".data ++ renderTriple e.velocity ++ ['\n']))

/-- The `/epochs/{epoch}` handler (lines 147-162): returns the block for the
first entry whose second-precision ISO epoch equals the path key, else
HTTP 404 with body `"Epoch not found"`. -/
def epoch_detail (data : List Entry) (epoch : Str) : Str × Nat :=
  match data.find? (fun e => isoSecChars e.epoch == epoch) with
  | some e => (renderEpochBlock e, 200)
  | none => ("Epoch not found".data, 404)

/-- The nearest-entry selection of the `/now` handler (line 218):
`find_closest_epoch` applied directly to the `get_iss_data()` result, in
cache order — no sort is performed in this handler. -/
def nowClosest (data : List Entry) (t : DateTime) : Option Entry :=
  find_closest_epoch data t

/-- The `%Y-%jT%H:%M:%S` part of the strftime at line 111. -/
def fmtYjBase (dt : DateTime) : Str :=
  padDigits 4 dt.year ++ '-' :: (padDigits 3 (doyOf (isLeap dt.year) dt.month dt.day) ++
    'T' :: (padDigits 2 dt.hour ++ ':' :: (padDigits 2 dt.minute ++
      ':' :: padDigits 2 dt.second)))

/-- `entry["epoch"].strftime('%Y-%jT%H:%M:%S.000Z')` (line 111): day-of-year
form, fractional part hard-coded to `.000` — the microseconds are dropped
here. -/
def fmtYjT (dt : DateTime) : Str := fmtYjBase dt ++ ".000Z".data

/-- `epoch_str[:-5]`. -/
def pyDropLast (cs : Str) (k : Nat) : Str := cs.take (cs.length - k)

/-- `%Y-%m-%d %H:%M:%S` rendering of a calendar time
(`time.strftime` at line 112). -/
def fmtYmdHms (y mo d h mi s : Nat) : Str :=
  padDigits 4 y ++ '-' :: (padDigits 2 mo ++ '-' :: (padDigits 2 d ++
    ' ' :: (padDigits 2 h ++ ':' :: (padDigits 2 mi ++ ':' :: padDigits 2 s))))

/-- `time.strptime(s, '%Y-%jT%H:%M:%S')` followed by
`time.strftime('%Y-%m-%d %H:%M:%S', ...)` (line 112): parse the day-of-year
form (`strptime` computes month and day from the julian day) and render the
calendar form; `none` models the `ValueError` on a non-matching string. -/
def strptimeYjThenFmt (cs : Str) : Option Str :=
  match readN 4 cs with
  | none => none
  | some (y, cs) =>
  match expectC '-' cs with
  | none => none
  | some cs =>
  match readN 3 cs with
  | none => none
  | some (j, cs) =>
  match expectC 'T' cs with
  | none => none
  | some cs =>
  match readN 2 cs with
  | none => none
  | some (h, cs) =>
  match expectC ':' cs with
  | none => none
  | some cs =>
  match readN 2 cs with
  | none => none
  | some (mi, cs) =>
  match expectC ':' cs with
  | none => none
  | some cs =>
  match readN 2 cs with
  | none => none
  | some (s, cs) =>
  match cs with
  | [] =>
    let md := fromDoy (isLeap y) j
    some (fmtYmdHms y md.1 md.2 h mi s)
  | _ => none

/-- The observation-time chain of `compute_location_astropy` (lines 111-112):
the string handed to Astropy as `obstime` for the GCRS→ITRS rotation. -/
def obstimeChain (dt : DateTime) : Option Str :=
  strptimeYjThenFmt (pyDropLast (fmtYjT dt) 5)

/-- The whole-second truncation of an epoch. -/
def truncSec (dt : DateTime) : DateTime := { dt with microsecond := 0 }

/-- The serialized record under which a state vector is persisted at populate
time (lines 47-59 and 62): the full-precision ISO epoch string together with
the position and velocity components. -/
def toCacheEntry (e : Entry) : PEntry := ⟨isoFullChars e.epoch, e.position, e.velocity⟩

/-- Whether one raw record parses without an exception. -/
def recOk (r : RawRec) : Bool := (toPEntry r).isSome

/-- The specification's `averageSpeed`: the arithmetic mean of `speed` over
every entry (stated independently of the code's guard, with the empty sum
over the empty dataset). -/
noncomputable def averageSpeedSpec (data : List Entry) : ℝ :=
  (data.map fun e => compute_speed e.velocity).sum / (data.length : ℝ)

instance : IsTotal Entry epochLe :=
  ⟨fun a b => le_total (toMicros a.epoch) (toMicros b.epoch)⟩

instance : IsTrans Entry epochLe :=
  ⟨fun _ _ _ hab hbc => le_trans hab hbc⟩

/-- A sample epoch, 2024-01-01T00:00:10 UTC. -/
def wDtA : DateTime := ⟨2024, 1, 1, 0, 0, 10, 0⟩

/-- A sample epoch, 2024-01-01T00:00:20 UTC. -/
def wDtB : DateTime := ⟨2024, 1, 1, 0, 0, 20, 0⟩

/-- A sample query time equidistant from `wDtA` and `wDtB`. -/
def wDtMid : DateTime := ⟨2024, 1, 1, 0, 0, 15, 0⟩

/-- A sample state-vector entry at `wDtA`. -/
def wEntryA : Entry := ⟨wDtA, (1, 2, 3), (4, 5, 6)⟩

/-- A sample state-vector entry at `wDtB`. -/
def wEntryB : Entry := ⟨wDtB, (7, 8, 9), (1, 1, 1)⟩

/-- A raw record that parses cleanly. -/
def wRecGood : RawRec := ⟨some wDtA, some 1, some 2, some 3, some 4, some 5, some 6⟩

/-- A raw record whose `X` component fails to parse. -/
def wRecBad : RawRec := { wRecGood with X := none }
theorem padDigits_length (w n : Nat) : (padDigits w n).length = w := by
  induction w generalizing n with
  | zero => rfl
  | succ w ih => simp [padDigits, ih]

theorem digitChar_isDigit : ∀ r < 10, (digitChar r).isDigit = true := by decide

theorem digitChar_toNat : ∀ r < 10, (digitChar r).toNat = 48 + r := by decide

theorem padDigits_all_digits (w n : Nat) :
    (padDigits w n).all (fun c => c.isDigit) = true := by
  induction w generalizing n with
  | zero => rfl
  | succ w ih =>
    rw [padDigits, List.all_append, ih _, List.all_cons, List.all_nil,
      digitChar_isDigit (n % 10) (Nat.mod_lt _ (by norm_num))]
    rfl

theorem digitsVal_append_digit (xs : Str) (c : Char) :
    digitsVal (xs ++ [c]) = 10 * digitsVal xs + (c.toNat - 48) := by
  simp [digitsVal, List.foldl_append]

theorem digitsVal_padDigits (w n : Nat) (h : n < 10 ^ w) :
    digitsVal (padDigits w n) = n := by
  induction w generalizing n with
  | zero => interval_cases n; rfl
  | succ w ih =>
    have hdiv : n / 10 < 10 ^ w := by
      rw [Nat.div_lt_iff_lt_mul (by norm_num)]
      calc n < 10 ^ (w + 1) := h
        _ = 10 ^ w * 10 := by ring
    rw [padDigits, digitsVal_append_digit, ih _ hdiv,
      digitChar_toNat (n % 10) (Nat.mod_lt _ (by norm_num))]
    omega

theorem readN_padDigits (w n : Nat) (rest : Str) (h : n < 10 ^ w) :
    readN w (padDigits w n ++ rest) = some (n, rest) := by
  have hlen : (padDigits w n).length = w := padDigits_length w n
  rw [readN]
  simp only [List.take_left' hlen, List.drop_left' hlen]
  rw [if_pos ⟨hlen, padDigits_all_digits w n⟩]
  rw [digitsVal_padDigits w n h]

theorem expectC_cons (c : Char) (rest : Str) : expectC c (c :: rest) = some rest := by
  simp [expectC]

theorem fromDoy_doyOf (leap : Bool) :
    ∀ m < 13, ∀ d < 32,
      1 ≤ m ∧ 1 ≤ d ∧ d ≤ monthLen leap m → fromDoy leap (doyOf leap m d) = (m, d) := by
  cases leap <;> decide

theorem fromiso_isoFull (dt : DateTime) (h : ValidDT dt) :
    fromisoChars (isoFullChars dt) = some dt := by
  obtain ⟨hy, hmo, hd, hh, hmi, hs, hus⟩ := h
  by_cases hz : dt.microsecond = 0
  · simp only [isoFullChars, if_pos hz, fromisoChars, List.nil_append,
      readN_padDigits _ _ _ hy, expectC_cons, readN_padDigits _ _ _ hmo,
      readN_padDigits _ _ _ hd, readN_padDigits _ _ _ hh,
      readN_padDigits _ _ _ hmi, readN_padDigits _ _ _ hs]
    simp [tzChars, hz]
    rw [← hz]
  · simp only [isoFullChars, if_neg hz, fromisoChars, List.cons_append, List.append_assoc,
      readN_padDigits _ _ _ hy, expectC_cons, readN_padDigits _ _ _ hmo,
      readN_padDigits _ _ _ hd, readN_padDigits _ _ _ hh,
      readN_padDigits _ _ _ hmi, readN_padDigits _ _ _ hs, readN_padDigits _ _ _ hus]
    simp [tzChars]

theorem readN_padDigits_exact (w n : Nat) (h : n < 10 ^ w) :
    readN w (padDigits w n) = some (n, []) := by
  simpa using readN_padDigits w n [] h

theorem monthLen_le_31 (leap : Bool) (m : Nat) : monthLen leap m ≤ 31 := by
  unfold monthLen
  split <;> (try split) <;> omega

theorem doyOf_lt_1000 (leap : Bool) : ∀ m < 13, ∀ d < 32, doyOf leap m d < 1000 := by
  cases leap <;> decide

theorem pyDropLast_append (a b : Str) : pyDropLast (a ++ b) b.length = a := by
  simp [pyDropLast, List.length_append, List.take_left]

theorem clampIdx_nonneg (n : Nat) (i : Int) (h : 0 ≤ i) : clampIdx n i = min i.toNat n := by
  simp [clampIdx, not_lt.mpr h]

theorem parseLoop_bad (recs : List RawRec) (acc : List PEntry) (rd : Cache)
    (hbad : ∃ r ∈ recs, recOk r = false) :
    parseLoop recs acc rd =
      (none, ((recs.takeWhile recOk).filterMap toPEntry).foldl
        (fun c e => hset c e.epoch e) rd) := by
  induction recs generalizing acc rd with
  | nil => simp at hbad
  | cons v rest ih =>
    obtain ⟨r, hr, hrb⟩ := hbad
    cases hv : toPEntry v with
    | none =>
      have hvf : recOk v = false := by simp [recOk, hv]
      simp [parseLoop, hv, List.takeWhile_cons, hvf]
    | some e =>
      have hvok : recOk v = true := by simp [recOk, hv]
      have hrest : ∃ r ∈ rest, recOk r = false := by
        rcases List.mem_cons.mp hr with rfl | hmem
        · rw [hvok] at hrb; exact absurd hrb (by simp)
        · exact ⟨r, hmem, hrb⟩
      rw [parseLoop]
      simp only [hv]
      rw [ih _ _ hrest]
      simp [List.takeWhile_cons, hvok, List.filterMap_cons, hv]

theorem foldl_min_spec (t : DateTime) (xs : List Entry) (acc : Entry) :
    (xs.foldl (fun best d => if diffKey d t < diffKey best t then d else best) acc = acc ∧
      ∀ e ∈ xs, diffKey acc t ≤ diffKey e t) ∨
    (∃ l1 r l2, xs = l1 ++ r :: l2 ∧
      xs.foldl (fun best d => if diffKey d t < diffKey best t then d else best) acc = r ∧
      diffKey r t < diffKey acc t ∧ (∀ e ∈ l1, diffKey r t < diffKey e t) ∧
      ∀ e ∈ l2, diffKey r t ≤ diffKey e t) := by
  induction xs generalizing acc with
  | nil => exact Or.inl ⟨rfl, by simp⟩
  | cons d rest ih =>
    rw [List.foldl_cons]
    by_cases hd : diffKey d t < diffKey acc t
    · rw [if_pos hd]
      rcases ih d with ⟨hfold, hmin⟩ | ⟨l1, r, l2, heq, hfold, hlt, hl1, hl2⟩
      · exact Or.inr ⟨[], d, rest, by simp, hfold, hd, by simp, hmin⟩
      · refine Or.inr ⟨d :: l1, r, l2, by simp [heq], hfold, lt_trans hlt hd, ?_, hl2⟩
        intro e he
        rcases List.mem_cons.mp he with rfl | he2
        · exact hlt
        · exact hl1 e he2
    · rw [if_neg hd]
      rcases ih acc with ⟨hfold, hmin⟩ | ⟨l1, r, l2, heq, hfold, hlt, hl1, hl2⟩
      · refine Or.inl ⟨hfold, ?_⟩
        intro e he
        rcases List.mem_cons.mp he with rfl | he2
        · exact not_lt.mp hd
        · exact hmin e he2
      · refine Or.inr ⟨d :: l1, r, l2, by simp [heq], hfold, hlt, ?_, hl2⟩
        intro e he
        rcases List.mem_cons.mp he with rfl | he2
        · exact lt_of_lt_of_le hlt (not_lt.mp hd)
        · exact hl1 e he2

/-- C10: when the dataset is empty, the `/epochs` handler does not fail and
returns HTTP 200 with a body consisting of exactly one newline character
(the joined empty list plus the trailing newline), for any offset/limit
parameters. -/
theorem epochs_route_empty_dataset (offset : Int) (limit : Option Int) :
    epochsRoute [] offset limit = (['\n'], 200) := by
  cases limit <;>
    simp [epochsRoute, sortByEpoch, List.insertionSort, rangeSlice, pySlice, joinNL]

/-- C8: `compute_average_speed` equals the arithmetic mean of `compute_speed`
over every entry (`averageSpeedSpec`, stated from the specification's words),
and returns `0.0` on the empty dataset without failing (the function is
total). -/
theorem compute_average_speed_is_mean (data : List Entry) :
    compute_average_speed data = averageSpeedSpec data ∧ compute_average_speed [] = 0 := by
  constructor
  · rcases data with _ | ⟨e, rest⟩
    · simp [compute_average_speed, averageSpeedSpec]
    · simp [compute_average_speed, averageSpeedSpec]
  · simp [compute_average_speed]

/-- C7: writing a state vector to the cache (serialization with the
full-precision ISO epoch string, as done at populate time) and reading it
back (structural JSON decode plus `fromisoformat`, as done on a cache hit)
restores an equal epoch, position and velocity. -/
theorem cache_round_trip_lossless (e : Entry) (h : ValidDT e.epoch) :
    ofCacheEntry (toCacheEntry e) = some e := by
  simp [ofCacheEntry, toCacheEntry, fromiso_isoFull e.epoch h]

/-- Witness for C7 at a concrete entry with nonzero microseconds. -/
theorem cache_round_trip_lossless_witness :
    ofCacheEntry (toCacheEntry ⟨⟨2024, 2, 29, 10, 20, 30, 123456⟩, (1, 2, 3), (4, 5, 6)⟩) =
      some ⟨⟨2024, 2, 29, 10, 20, 30, 123456⟩, (1, 2, 3), (4, 5, 6)⟩ :=
  cache_round_trip_lossless _ (by constructor <;> norm_num)

/-- C2 counterexample: the `/now` nearest-epoch resolution is NOT applied to a
dataset sorted at query time — `find_closest_epoch` is applied to the cache
order directly (line 218), and on a distance tie its result differs from the
result on the sorted dataset, so the dataset it searches cannot have been
sorted regardless of cache order. -/
theorem now_route_unsorted_cex :
    nowClosest [wEntryB, wEntryA] wDtMid ≠
      nowClosest (sortByEpoch [wEntryB, wEntryA]) wDtMid := by
  decide

/-- C2 amended: the `/epochs` listing sorts the dataset ascending by epoch at
query time, before the offset/limit slice, regardless of cache order (the
slice operates on a sorted permutation of the input); the `/now` handler, in
contrast, applies its nearest search to the unsorted cache order (see the
counterexample). -/
theorem epochs_route_sorts_before_slicing (data : List Entry) (offset : Int)
    (limit : Option Int) :
    ∃ s, s.Perm data ∧ List.Sorted epochLe s ∧
      epochsRoute data offset limit =
        (joinNL ((rangeSlice s offset limit).map fun e => isoSecChars e.epoch) ++ ['\n'], 200) :=
  ⟨sortByEpoch data, List.perm_insertionSort epochLe data,
    List.sorted_insertionSort epochLe data, rfl⟩

/-- C1 counterexample: a batch whose second record fails to parse makes
`parse_iss_data` return the empty list, yet the cache is NOT unchanged — the
parser itself executed `rd.hset` for the first record before the failure, so
a state vector from the failing batch is persisted. -/
theorem parse_iss_data_partial_write_cex :
    (parse_iss_data [wRecGood, wRecBad] []).1 = [] ∧
      (parse_iss_data [wRecGood, wRecBad] []).2 ≠ [] := by
  decide

/-- C1 amended: if any record of the batch fails to parse, `parse_iss_data`
returns an empty result for the whole batch; but the parser performs the
cache writes itself, inside the record loop, so the records preceding the
first failure are already persisted when it returns — the final cache equals
the input cache with exactly the entries of the longest parsing prefix
written into it. -/
theorem parse_iss_data_batch_failure (recs : List RawRec) (rd : Cache)
    (hbad : ∃ r ∈ recs, recOk r = false) :
    (parse_iss_data recs rd).1 = [] ∧
      (parse_iss_data recs rd).2 =
        ((recs.takeWhile recOk).filterMap toPEntry).foldl
          (fun c e => hset c e.epoch e) rd := by
  rw [parse_iss_data, parseLoop_bad recs [] rd hbad]
  exact ⟨rfl, rfl⟩

/-- Witness for C1 at the concrete two-record batch: the result is empty and
the cache holds exactly the first record's entry. -/
theorem parse_iss_data_batch_failure_witness :
    (parse_iss_data [wRecGood, wRecBad] []).1 = [] ∧
      (parse_iss_data [wRecGood, wRecBad] []).2 =
        (([wRecGood, wRecBad].takeWhile recOk).filterMap toPEntry).foldl
          (fun c e => hset c e.epoch e) [] :=
  parse_iss_data_batch_failure [wRecGood, wRecBad] [] (by decide)

/-- C4: `get_iss_data` returns the empty dataset — and no exception reaches
the caller, the embedded function being total — whenever the external fetch
fails (or returns an empty body), parsing yields nothing, or a Redis
operation raises (`rdFails`) or a cached value fails to deserialize. -/
theorem get_iss_data_empty_on_failure (rdFails : Bool) (rd : Cache)
    (fetched : Option (List RawRec))
    (h : rdFails = true ∨
      (rd = [] ∧ (fetched = none ∨
        ∃ recs, fetched = some recs ∧ (parse_iss_data recs rd).1 = [])) ∨
      (rd ≠ [] ∧ (rd.map Prod.snd).mapM ofCacheEntry = none)) :
    get_iss_data rdFails rd fetched = [] := by
  rcases h with h | ⟨hrd, hf⟩ | ⟨hrd, hc⟩
  · simp [get_iss_data, h]
  · subst hrd
    rcases hf with rfl | ⟨recs, rfl, hp⟩
    · cases rdFails <;> simp [get_iss_data]
    · cases rdFails <;> simp [get_iss_data, hp]
  · have hlen : rd.length ≠ 0 := by simpa [List.length_eq_zero] using hrd
    cases rdFails with
    | true => simp [get_iss_data]
    | false => rw [get_iss_data.eq_def, if_neg (by simp), if_neg hlen, hc]

/-- Witness for C4: a failed fetch on an empty cache yields the empty
dataset. -/
theorem get_iss_data_empty_on_failure_witness :
    get_iss_data false [] none = [] :=
  get_iss_data_empty_on_failure false [] none (Or.inr (Or.inl ⟨rfl, Or.inl rfl⟩))

/-- C5: the `/epochs/{epoch}` handler returns the state-vector block of an
entry exactly when the entry's epoch, truncated to whole seconds and
rendered as the canonical ISO string, equals the path key (the first such
entry); when no entry matches it returns HTTP 404 with the fixed body
`"Epoch not found"`. -/
theorem epoch_detail_exact_match (data : List Entry) (key : Str) :
    ((∀ e ∈ data, isoSecChars e.epoch ≠ key) →
        epoch_detail data key = ("Epoch not found".data, 404)) ∧
    ((∃ e ∈ data, isoSecChars e.epoch = key) →
        ∃ e ∈ data, isoSecChars e.epoch = key ∧
          epoch_detail data key = (renderEpochBlock e, 200)) := by
  constructor
  · intro hnone
    have hfind : data.find? (fun e => isoSecChars e.epoch == key) = none := by
      rw [List.find?_eq_none]
      intro x hx
      simpa using hnone x hx
    simp [epoch_detail, hfind]
  · intro hex
    cases hfind : data.find? (fun e => isoSecChars e.epoch == key) with
    | none =>
      obtain ⟨e, he, hk⟩ := hex
      rw [List.find?_eq_none] at hfind
      exact absurd (by simpa using hk) (hfind e he)
    | some e =>
      have hmem := List.mem_of_find?_eq_some hfind
      have hp := List.find?_some hfind
      exact ⟨e, hmem, by simpa using hp, by simp [epoch_detail, hfind]⟩

/-- Witness for C5: a key matching no entry produces the fixed 404. -/
theorem epoch_detail_exact_match_witness :
    epoch_detail [wEntryA] ['x'] = ("Epoch not found".data, 404) :=
  (epoch_detail_exact_match [wEntryA] ['x']).1 (by decide)

/-- C6 counterexample: the `limit` query parameter is parsed as an arbitrary
integer, and for the negative limit `-1` (offset `0 ≥ 0`) the slice
`data[0 : 0 + (-1)]` keeps every element but the last, so the returned
sequence is longer than `limit`. -/
theorem rangeSlice_negative_limit_cex :
    rangeSlice [wEntryA, wEntryB] 0 (some (-1)) = [wEntryA] ∧
      ¬ (((rangeSlice [wEntryA, wEntryB] 0 (some (-1))).length : Int) ≤ -1) := by
  decide

/-- C6 amended: the `/epochs` slice never fails (the function is total);
for `offset ≥ 0`, offsets at or past the end yield the empty sequence; for
`offset ≥ 0` and a NON-NEGATIVE `limit` the result is no longer than
`limit`; and with `limit` omitted the result is exactly the remainder from
`offset`. -/
theorem rangeSlice_never_fails_bounds (data : List Entry) (offset : Int)
    (limit : Option Int) :
    (0 ≤ offset → data.length ≤ offset.toNat → rangeSlice data offset limit = []) ∧
    (∀ l, limit = some l → 0 ≤ offset → 0 ≤ l →
      ((rangeSlice data offset limit).length : Int) ≤ l) ∧
    (limit = none → 0 ≤ offset →
      (rangeSlice data offset limit).length = data.length - offset.toNat) := by
  refine ⟨?_, ?_, ?_⟩
  · intro hoff hlen
    have hlo : clampIdx data.length offset = data.length := by
      rw [clampIdx_nonneg _ _ hoff]; omega
    cases limit <;> simp [rangeSlice, pySlice, hlo, List.drop_length]
  · intro l hl hoff hpos
    subst hl
    have hlo := clampIdx_nonneg data.length offset hoff
    have hhi := clampIdx_nonneg data.length (offset + l) (by omega)
    simp only [rangeSlice, pySlice, List.length_take, List.length_drop, hlo, hhi]
    omega
  · intro hl hoff
    subst hl
    simp only [rangeSlice, pySlice, List.length_take, List.length_drop,
      clampIdx_nonneg _ _ hoff]
    omega

/-- Witness for C6: an offset past the end of a one-entry dataset yields the
empty sequence. -/
theorem rangeSlice_never_fails_bounds_witness :
    rangeSlice [wEntryA] 5 none = [] :=
  (rangeSlice_never_fails_bounds [wEntryA] 5 none).1 (by norm_num) (by norm_num)

theorem epochLe_refl (a : Entry) : epochLe a a := le_refl (toMicros a.epoch)

/-- C3: on a non-empty dataset sorted ascending by epoch,
`find_closest_epoch` returns an entry whose absolute epoch distance to the
query time is minimal, and among entries attaining the minimum it returns
the first in ascending-epoch order (the one with the least epoch). -/
theorem find_closest_epoch_minimal (data : List Entry) (t : DateTime)
    (hne : data ≠ []) (hs : List.Sorted epochLe data) :
    ∃ e, find_closest_epoch data t = some e ∧ e ∈ data ∧
      (∀ f ∈ data, diffKey e t ≤ diffKey f t) ∧
      ∀ f ∈ data, diffKey f t = diffKey e t → epochLe e f := by
  match data, hne with
  | x :: xs, _ =>
    rw [find_closest_epoch]
    rcases foldl_min_spec t xs x with ⟨hfold, hmin⟩ | ⟨l1, r, l2, heq, hfold, hlt, hl1, hl2⟩
    · refine ⟨x, by rw [hfold], List.mem_cons_self x xs, ?_, ?_⟩
      · intro f hf
        rcases List.mem_cons.mp hf with rfl | hf2
        · exact le_refl _
        · exact hmin f hf2
      · intro f hf _
        rcases List.mem_cons.mp hf with rfl | hf2
        · exact epochLe_refl _
        · exact (List.sorted_cons.mp hs).1 f hf2
    · refine ⟨r, by rw [hfold], ?_, ?_, ?_⟩
      · rw [heq]
        simp
      · intro f hf
        rcases List.mem_cons.mp hf with rfl | hf2
        · exact le_of_lt hlt
        · rw [heq] at hf2
          rcases List.mem_append.mp hf2 with h1 | h2
          · exact le_of_lt (hl1 f h1)
          · rcases List.mem_cons.mp h2 with rfl | h3
            · exact le_refl _
            · exact hl2 f h3
      · intro f hf heqk
        rcases List.mem_cons.mp hf with rfl | hf2
        · exact absurd heqk (ne_of_gt hlt)
        · rw [heq] at hf2
          rcases List.mem_append.mp hf2 with h1 | h2
          · exact absurd heqk (ne_of_gt (hl1 f h1))
          · rcases List.mem_cons.mp h2 with rfl | h3
            · exact epochLe_refl _
            · have hp : (x :: (l1 ++ r :: l2)).Pairwise epochLe := heq ▸ hs
              have hp2 : (l1 ++ r :: l2).Pairwise epochLe := (List.pairwise_cons.mp hp).2
              have hp3 : (r :: l2).Pairwise epochLe :=
                List.Pairwise.sublist (List.sublist_append_right l1 (r :: l2)) hp2
              exact (List.pairwise_cons.mp hp3).1 f h3

/-- Witness for C3 on a concrete sorted two-entry dataset with a tied query
time. -/
theorem find_closest_epoch_minimal_witness :
    ∃ e, find_closest_epoch [wEntryA, wEntryB] wDtMid = some e ∧ e ∈ [wEntryA, wEntryB] ∧
      (∀ f ∈ [wEntryA, wEntryB], diffKey e wDtMid ≤ diffKey f wDtMid) ∧
      ∀ f ∈ [wEntryA, wEntryB], diffKey f wDtMid = diffKey e wDtMid → epochLe e f :=
  find_closest_epoch_minimal [wEntryA, wEntryB] wDtMid (by decide) (by decide)

/-- C9: the observation time handed to the GCRS→ITRS rotation in
`compute_location_astropy` is exactly the entry's epoch truncated to whole
seconds — the strftime/strptime/strftime chain drops the microseconds
(hard-coded `.000`) but preserves year, month, day, hour, minute and second
unchanged, with the day-of-year encoding inverted exactly. -/
theorem obstime_chain_whole_second (dt : DateTime)
    (hy : dt.year < 10 ^ 4) (hh : dt.hour < 10 ^ 2) (hmi : dt.minute < 10 ^ 2)
    (hs : dt.second < 10 ^ 2)
    (hm : 1 ≤ dt.month ∧ dt.month ≤ 12)
    (hd : 1 ≤ dt.day ∧ dt.day ≤ monthLen (isLeap dt.year) dt.month) :
    obstimeChain dt =
      some (fmtYmdHms (truncSec dt).year (truncSec dt).month (truncSec dt).day
        (truncSec dt).hour (truncSec dt).minute (truncSec dt).second) := by
  have hml := monthLen_le_31 (isLeap dt.year) dt.month
  have hdoy : doyOf (isLeap dt.year) dt.month dt.day < 10 ^ 3 := by
    have := doyOf_lt_1000 (isLeap dt.year) dt.month (by omega) dt.day (by omega)
    simpa using this
  have hdrop : pyDropLast (fmtYjT dt) 5 = fmtYjBase dt := by
    have h5 : (".000Z".data).length = 5 := rfl
    rw [fmtYjT, ← h5, pyDropLast_append]
  rw [obstimeChain, hdrop]
  simp only [strptimeYjThenFmt, fmtYjBase,
    readN_padDigits _ _ _ hy, expectC_cons, readN_padDigits _ _ _ hdoy,
    readN_padDigits _ _ _ hh, readN_padDigits _ _ _ hmi, readN_padDigits_exact _ _ hs]
  rw [fromDoy_doyOf (isLeap dt.year) dt.month (by omega) dt.day (by omega)
    ⟨hm.1, hd.1, hd.2⟩]
  rfl

/-- Witness for C9 on a concrete leap-day epoch with nonzero microseconds. -/
theorem obstime_chain_whole_second_witness :
    obstimeChain ⟨2024, 2, 29, 10, 20, 30, 123456⟩ =
      some (fmtYmdHms (truncSec ⟨2024, 2, 29, 10, 20, 30, 123456⟩).year
        (truncSec ⟨2024, 2, 29, 10, 20, 30, 123456⟩).month
        (truncSec ⟨2024, 2, 29, 10, 20, 30, 123456⟩).day
        (truncSec ⟨2024, 2, 29, 10, 20, 30, 123456⟩).hour
        (truncSec ⟨2024, 2, 29, 10, 20, 30, 123456⟩).minute
        (truncSec ⟨2024, 2, 29, 10, 20, 30, 123456⟩).second) :=
  obstime_chain_whole_second ⟨2024, 2, 29, 10, 20, 30, 123456⟩
    (by norm_num) (by norm_num) (by norm_num) (by norm_num)
    (by norm_num) (by constructor <;> decide)
